import Mathlib

/-!
Shallow embedding of the imposm3 export-sink packages (database/avro,
database/gcs, database/bigquery) together with proofs about their
generalized-table handling, transaction routers, table import workers,
row encoders, dataset rotation and connection-string parsing.

Embedding conventions
* Go maps are embedded as association lists; the list order stands for one
  possible map iteration order (Go map iteration order is unspecified).
* Go pointers to shared specs are embedded as table names looked up in the
  threaded state, so a write through one alias is seen through the other.
* External effects (BigQuery jobs, GCS object writers, log output) are
  embedded as emitted effect traces; remote jobs are recorded in the trace
  in the order the code starts them.
* A Go function that can call panic or log.Fatal is embedded with an
  Option/Except result whose failure case stands for the aborted process.
-/

namespace ImposmBQ

/-- GeneralizedTableSpec (database/bigquery/spec.go): the fields read and
written by dependency resolution (prepareGeneralizedTableSources), the build
pass (Generalize) and InsertSQL.  The resolved pointers Source and
SourceGeneralized are embedded as table names; Tolerance (a float64 that the
SQL builders only ever render with fmt %f) is embedded as that rendering. -/
structure GeneralizedTableSpec where
  name : String
  dataset : String
  sourceName : String
  Source : Option String
  SourceGeneralized : Option String
  toleranceF : String
  Where : String
  created : Bool
  deriving Repr, DecidableEq

/-- Physical field type of a bigquery column (fields.go): the closed variant
set registered in bqTypes.  simpleFieldType is embedded with the Avro type
its Type()+AvroType() pair maps to. -/
inductive BQFieldType where
  | simple (avro : String)
  | geometry
  | validatedGeometry
  deriving Repr, DecidableEq

/-- FieldSpec (database/bigquery/spec.go): column name and field type. -/
structure BQFieldSpec where
  name : String
  type : BQFieldType
  deriving Repr, DecidableEq

/-- TableSpec (database/bigquery/spec.go): the fields InsertSQL and the
generalization passes read. -/
structure TableSpec where
  name : String
  dataset : String
  fields : List BQFieldSpec
  deriving Repr, DecidableEq

/-- FieldSpec.BigQueryName: every character outside [a-zA-Z0-9_] is replaced
by an underscore (regexp ReplaceAllString in spec.go). -/
def BigQueryName (s : String) : String :=
  String.mk (s.toList.map (fun c => if c.isAlphanum || c = '_' then c else '_'))

/-- FieldType.GeneralizeSQL (fields.go): simple fields project as their
sanitized name, geometry simplifies, validated geometry buffers the
simplified shape by zero. -/
def GeneralizeSQL (t : BQFieldType) (col : BQFieldSpec) (spec : GeneralizedTableSpec) : String :=
  match t with
  | .simple _ => BigQueryName col.name
  | .geometry =>
      "ST_SIMPLIFY(" ++ BigQueryName col.name ++ ", " ++ spec.toleranceF ++ ") as "
        ++ BigQueryName col.name
  | .validatedGeometry =>
      "ST_BUFFER(ST_SIMPLIFY(" ++ BigQueryName col.name ++ ", " ++ spec.toleranceF
        ++ "), 0) as " ++ BigQueryName col.name

/-- GeneralizedTableSpec.InsertSQL (spec.go): the parameterized insert-select
for one changed id, filtered by id and, when the table has a static filter,
with that filter ANDed.  none embeds the panic on a missing id column.
`src` is the resolved base table spec (spec.Source). -/
def InsertSQL (src : TableSpec) (spec : GeneralizedTableSpec) : Option String :=
  match (src.fields.find? (fun col => col.name == "id")).map (fun col => col.name) with
  | none => none
  | some idColumnName =>
      let cols := src.fields.map (fun col => GeneralizeSQL col.type col spec)
      let whereSQL :=
        " WHERE \"" ++ idColumnName ++ "\" = $1"
          ++ (if spec.Where != "" then " AND (" ++ spec.Where ++ ")" else "")
      some ("INSERT INTO \"" ++ spec.dataset ++ "\".\"" ++ spec.name
        ++ "\" (SELECT " ++ String.intercalate ",\n" cols
        ++ " FROM \"" ++ src.dataset ++ "\".\"" ++ src.name ++ "\"" ++ whereSQL ++ ")")

/-- Lookup of bq.GeneralizedTables[n] in the threaded list state. -/
def lookupGen (gts : List GeneralizedTableSpec) (n : String) : Option GeneralizedTableSpec :=
  gts.find? (fun t => t.name == n)

/-- First loop of prepareGeneralizedTableSources: attach each generalized
table's direct source.  A source name matching a base table sets Source; a
name matching a generalized table sets SourceGeneralized; anything else is
the fatal configuration error. -/
def attachSources (baseNames genNames : List String) :
    List GeneralizedTableSpec → Except String (List GeneralizedTableSpec)
  | [] => .ok []
  | t :: ts =>
      if baseNames.contains t.sourceName then
        (attachSources baseNames genNames ts).map
          (fun r => { t with Source := some t.sourceName } :: r)
      else if genNames.contains t.sourceName then
        (attachSources baseNames genNames ts).map
          (fun r => { t with SourceGeneralized := some t.sourceName } :: r)
      else
        .error ("missing source \"" ++ t.sourceName ++ "\" for generalized table \""
          ++ t.name ++ "\"")

/-- One iteration of the body of the fill loop of
prepareGeneralizedTableSources, over the positions in `idxs`: a table with
no Source yet copies the Source of the generalized table its SourceName
names when that source already has one; `filled` becomes true whenever a
table with no Source was visited, whether or not anything was copied
(exactly as the Go body sets it). -/
def fillPassAux (gts : List GeneralizedTableSpec) (filled : Bool) :
    List Nat → List GeneralizedTableSpec × Bool
  | [] => (gts, filled)
  | i :: rest =>
      match gts[i]? with
      | none => fillPassAux gts filled rest
      | some t =>
          if t.Source.isNone then
            let gts1 :=
              match lookupGen gts t.sourceName with
              | some s => if s.Source.isSome then gts.set i { t with Source := s.Source } else gts
              | none => gts
            fillPassAux gts1 true rest
          else fillPassAux gts filled rest

/-- One full pass of the fill loop over all tables in iteration order. -/
def fillPass (gts : List GeneralizedTableSpec) : List GeneralizedTableSpec × Bool :=
  fillPassAux gts false (List.range gts.length)

/-- The fill loop of prepareGeneralizedTableSources (`for filled := true;
filled;`): run a pass, repeat while it reported a table with no Source.
The Go loop has no fuel and spins forever on a cyclic configuration; none
embeds that divergence. -/
def fillLoop : Nat → List GeneralizedTableSpec → Option (List GeneralizedTableSpec)
  | 0, _ => none
  | fuel + 1, gts =>
      match fillPass gts with
      | (gts1, true) => fillLoop fuel gts1
      | (gts1, false) => some gts1

/-- prepareGeneralizedTableSources (part_006): attach direct sources, then
propagate the resolved base Source through chains until a pass finds no
table without one.  .error embeds the missing-source configuration error,
.ok none the diverging loop. -/
def prepareGeneralizedTableSources (fuel : Nat) (baseNames : List String)
    (gts : List GeneralizedTableSpec) : Except String (Option (List GeneralizedTableSpec)) :=
  (attachSources baseNames (gts.map (fun t => t.name)) gts).map (fillLoop fuel)

/-- Pass 1 of Generalize (part_006): every table whose source is not
generalized is built (its name is appended to the build trace) and marked
created.  The materialization queries are embedded as succeeding; a failing
query would only truncate the trace. -/
def generalizePass1 : List GeneralizedTableSpec → List GeneralizedTableSpec × List String
  | [] => ([], [])
  | t :: ts =>
      let (ts1, tr) := generalizePass1 ts
      if t.SourceGeneralized.isNone then
        ({ t with created := true } :: ts1, t.name :: tr)
      else
        (t :: ts1, tr)

/-- created flag of the spec a SourceGeneralized pointer names, read from the
threaded state. -/
def createdOf (gts : List GeneralizedTableSpec) (n : String) : Bool :=
  match lookupGen gts n with
  | some s => s.created
  | none => false

/-- Pass 2 of Generalize, over the positions in `idxs`: a table that is not
yet created and whose generalized source is created is built and marked
created.  This is a single pass over the map; the source comment says
"until no new source is created" but the code does not iterate. -/
def generalizePass2Aux (gts : List GeneralizedTableSpec) (trace : List String) :
    List Nat → List GeneralizedTableSpec × List String
  | [] => (gts, trace)
  | i :: rest =>
      match gts[i]? with
      | none => generalizePass2Aux gts trace rest
      | some t =>
          if !t.created &&
              (match t.SourceGeneralized with
               | some n => createdOf gts n
               | none => false) then
            generalizePass2Aux (gts.set i { t with created := true }) (trace ++ [t.name]) rest
          else generalizePass2Aux gts trace rest

/-- Generalize (part_006): pass 1 then one pass 2, returning the final specs
and the build trace in build order. -/
def Generalize (gts : List GeneralizedTableSpec) : List GeneralizedTableSpec × List String :=
  let (g1, tr1) := generalizePass1 gts
  generalizePass2Aux g1 tr1 (List.range g1.length)

/-- One pass of the sort loop of sortedGeneralizedTables (part_006): a table
not yet added is appended when its base Source is resolved or its
generalized source was already added. -/
def sortedPass : List GeneralizedTableSpec → List String → List String →
    List String × List String
  | [], added, sorted => (added, sorted)
  | t :: ts, added, sorted =>
      if !(added.contains t.name) &&
          (t.Source.isSome ||
            (match t.SourceGeneralized with
             | some n => added.contains n
             | none => false)) then
        sortedPass ts (t.name :: added) (sorted ++ [t.name])
      else
        sortedPass ts added sorted

/-- The sort loop of sortedGeneralizedTables, which repeats passes while
fewer tables are sorted than exist; the Go loop has no progress check and
spins forever when a pass adds nothing, which none embeds. -/
def sortedGeneralizedTablesAux (gts : List GeneralizedTableSpec) :
    Nat → List String → List String → Option (List String)
  | 0, _, _ => none
  | fuel + 1, added, sorted =>
      if sorted.length < gts.length then
        let (a1, s1) := sortedPass gts added sorted
        sortedGeneralizedTablesAux gts fuel a1 s1
      else some sorted

/-- sortedGeneralizedTables (part_006). -/
def sortedGeneralizedTables (fuel : Nat) (gts : List GeneralizedTableSpec) :
    Option (List String) :=
  sortedGeneralizedTablesAux gts fuel [] []

/-- The observable actions of the incremental-update path: a call of
TxRouter.Insert with its returned error, or an executed SQL statement.
GeneralizeUpdates only ever emits routerInsert actions; running the
statement of InsertSQL would emit query. -/
inductive UpdEffect where
  | routerInsert (table : String) (row : List Int) (result : Option String)
  | query (sql : String)
  deriving Repr, DecidableEq

/-- TxRouter.Insert (database/bigquery/router.go) as seen by its caller: the
error for a table with no worker, nil otherwise (tableImport.Insert itself
always returns nil).  `workerTables` are the tables newTxRouter opened
workers for, which are exactly bq.Tables, the base tables. -/
def TxRouterInsertErr (workerTables : List String) (table : String) : Option String :=
  if workerTables.contains table then none
  else some ("Insert into unknown table " ++ table)

/-- GeneralizeUpdates (part_006): for every generalized table in dependency
order, push each tracked changed id through txRouter.Insert as the
single-cell row [id], discarding the returned error, and return nil.  The
result pairs the emitted actions with the returned error. -/
def GeneralizeUpdates (fuel : Nat) (workerTables : List String)
    (gts : List GeneralizedTableSpec) (updatedIDs : List (String × List Int)) :
    Option (List UpdEffect × Option String) :=
  (sortedGeneralizedTables fuel gts).map (fun sorted =>
    (sorted.foldl (fun acc tname =>
        match updatedIDs.lookup tname with
        | some ids =>
            acc ++ ids.map (fun id =>
              UpdEffect.routerInsert tname [id] (TxRouterInsertErr workerTables tname))
        | none => acc) [],
     none))

/-- Base table "roads" of the worked examples: an id column and a geometry
column, as the scenario of the spec uses. -/
def roadsTable : TableSpec :=
  { name := "roads", dataset := "import",
    fields := [{ name := "id", type := .simple "long" },
               { name := "geometry", type := .geometry }] }

/-- Generalized table "roads_gen" sourced from the base table "roads", with
a static filter, resolved (Source set) and built (created). -/
def roadsGen : GeneralizedTableSpec :=
  { name := "roads_gen", dataset := "import", sourceName := "roads",
    Source := some "roads", SourceGeneralized := none,
    toleranceF := "50.000000", Where := "type = 1", created := true }

/-- Unresolved generalized table "b" sourced from base table "a". -/
def genB : GeneralizedTableSpec :=
  { name := "b", dataset := "import", sourceName := "a",
    Source := none, SourceGeneralized := none,
    toleranceF := "50.000000", Where := "", created := false }

/-- Unresolved generalized table "c" sourced from generalized table "b". -/
def genC : GeneralizedTableSpec :=
  { name := "c", dataset := "import", sourceName := "b",
    Source := none, SourceGeneralized := none,
    toleranceF := "50.000000", Where := "", created := false }

/-- Unresolved generalized table "d" sourced from generalized table "c". -/
def genD : GeneralizedTableSpec :=
  { name := "d", dataset := "import", sourceName := "c",
    Source := none, SourceGeneralized := none,
    toleranceF := "50.000000", Where := "", created := false }

/-- C9: on the configuration with base table a, generalized b from a and
generalized c from b, prepareGeneralizedTableSources terminates (the fill
loop reaches its fixed point within the given fuel, so the result is
.ok (some _)) and resolves b.Source to a, c.Source to a and
c.SourceGeneralized to b. -/
theorem prepareGeneralizedTableSources_chain_abc :
    prepareGeneralizedTableSources 2 ["a"] [genB, genC] =
      .ok (some [{ genB with Source := some "a" },
                 { genC with Source := some "a", SourceGeneralized := some "b" }]) := by
  rfl

/-- C2: the build pass of Generalize is a single sweep, not the fixed-point
loop its own comment ("until no new source is created") describes: with the
resolved chain b from base a, c from b, d from c, in the map iteration
order d, c, b, pass 1 builds b, the single pass 2 builds c but visits d
before c is created, so d is never built; the build trace is [b, c] (b
before c, as the claim's two-level example states) and d stays uncreated. -/
theorem Generalize_single_pass_misses_deep_chain :
    (let out := Generalize
        [{ genD with Source := some "a", SourceGeneralized := some "c" },
         { genC with Source := some "a", SourceGeneralized := some "b" },
         { genB with Source := some "a" }]
     (out.1.map (fun t => (t.name, t.created)), out.2)) =
      ([("d", false), ("c", true), ("b", true)], ["b", "c"]) := by
  rfl

/-- C1: GeneralizeUpdates does not issue the insert-select of InsertSQL.  On
the configuration with base worker table roads, generalized table roads_gen
and tracked changed id 1 for roads_gen, it emits exactly one router insert
of the single-cell row [1] addressed to roads_gen, which the router rejects
with an unknown-table error that is discarded (the returned error is nil),
and it emits no query at all; the second conjunct computes the statement
InsertSQL would have built for that table, which is never executed. -/
theorem GeneralizeUpdates_routes_rows_issues_no_insertSQL :
    GeneralizeUpdates 2 ["roads"] [roadsGen] [("roads_gen", [1])] =
      some ([UpdEffect.routerInsert "roads_gen" [1]
              (some "Insert into unknown table roads_gen")], none) ∧
    InsertSQL roadsTable roadsGen =
      some ("INSERT INTO \"import\".\"roads_gen\" (SELECT id,\n"
        ++ "ST_SIMPLIFY(geometry, 50.000000) as geometry"
        ++ " FROM \"import\".\"roads\" WHERE \"id\" = $1 AND (type = 1))") := by
  exact ⟨rfl, rfl⟩

end ImposmBQ

namespace ImposmRouter

/-- A transaction router's workers for the End fan-out: each worker is its
table name paired with the error its End() call produces (none = success).
The list order is the map iteration order of txr.Tables. -/
def Workers := List (String × Option String)

/-- TxRouter.End of the bigquery router (database/bigquery/router.go): the
loop calls End on every worker and discards the result; the function then
returns nil.  The first component is the trace of workers whose End was
called, the second the returned error. -/
def TxRouterEndBQ (ws : List (String × Option String)) : List String × Option String :=
  (ws.map (fun w => w.1), none)

/-- outErr of the avro router's End loop (part_004): overwritten by each
non-nil worker error in iteration order. -/
def lastWorkerErr (ws : List (String × Option String)) : Option String :=
  ws.foldl (fun acc w =>
    match w.2 with
    | some e => some e
    | none => acc) none

/-- TxRouter.End of the avro router (part_004): every worker's End is
called; the last non-nil error is returned. -/
def TxRouterEndAvro (ws : List (String × Option String)) : List String × Option String :=
  (ws.map (fun w => w.1), lastWorkerErr ws)

/-- TxRouter.End of the gcs router (database/gcs/gcs.go): same loop as the
avro router. -/
def TxRouterEndGCS (ws : List (String × Option String)) : List String × Option String :=
  (ws.map (fun w => w.1), lastWorkerErr ws)

/-- The last error any worker produced, stated directly: the error of the
last worker whose End failed. -/
def lastErrSpec (ws : List (String × Option String)) : Option String :=
  (ws.reverse.find? (fun w => w.2.isSome)).bind (fun w => w.2)

theorem lastWorkerErr_foldl (ws : List (String × Option String)) (acc : Option String) :
    ws.foldl (fun acc w =>
      match w.2 with
      | some e => some e
      | none => acc) acc =
      match ws.reverse.find? (fun w => w.2.isSome) with
      | some w => w.2
      | none => acc := by
  induction ws generalizing acc with
  | nil => rfl
  | cons w ws ih =>
      rw [List.foldl_cons, ih, List.reverse_cons, List.find?_append]
      cases hf : ws.reverse.find? (fun w => w.2.isSome) with
      | some w' => rfl
      | none =>
          cases hw : w.2 with
          | some e => simp [List.find?, hw, Option.orElse]
          | none => simp [List.find?, hw, Option.orElse]

theorem lastWorkerErr_eq (ws : List (String × Option String)) :
    lastWorkerErr ws = lastErrSpec ws := by
  unfold lastWorkerErr lastErrSpec
  rw [lastWorkerErr_foldl]
  cases hf : ws.reverse.find? (fun w => w.2.isSome) with
  | some w => rfl
  | none => rfl

/-- C3 counterexample: a concrete router with one worker whose End fails
with "boom".  The bigquery router's End still returns nil, not the last
error the claim requires. -/
theorem TxRouterEndBQ_discards_error :
    TxRouterEndBQ [("roads", some "boom")] = (["roads"], none) ∧
    (TxRouterEndBQ [("roads", some "boom")]).2 ≠ some "boom" := by
  exact ⟨rfl, by simp [TxRouterEndBQ]⟩

/-- C3 amended: every router's End attempts every worker even when an
earlier one failed; the avro and gcs routers return the last error produced
by any worker, and return nil exactly when every worker ended without
error; the bigquery router discards worker errors and always returns nil. -/
theorem TxRouterEnd_attempts_all_returns_last (ws : List (String × Option String)) :
    (TxRouterEndBQ ws).1 = ws.map (fun w => w.1) ∧
    (TxRouterEndBQ ws).2 = none ∧
    TxRouterEndGCS ws = TxRouterEndAvro ws ∧
    (TxRouterEndAvro ws).1 = ws.map (fun w => w.1) ∧
    (TxRouterEndAvro ws).2 = lastErrSpec ws ∧
    ((TxRouterEndAvro ws).2 = none ↔ ∀ w ∈ ws, w.2 = none) := by
  refine ⟨rfl, rfl, rfl, rfl, lastWorkerErr_eq ws, ?_⟩
  rw [show (TxRouterEndAvro ws).2 = lastErrSpec ws from lastWorkerErr_eq ws]
  unfold lastErrSpec
  constructor
  · intro h w hw
    cases hf : ws.reverse.find? (fun w => w.2.isSome) with
    | some w' =>
        rw [hf] at h
        have hs := List.find?_some hf
        simp only [Option.bind] at h
        cases hw' : w'.2 with
        | some e => rw [hw'] at h; exact absurd h (by simp)
        | none => rw [hw'] at hs; simp at hs
    | none =>
        have := List.find?_eq_none.mp hf w (by simpa using hw)
        simpa using this
  · intro h
    cases hf : ws.reverse.find? (fun w => w.2.isSome) with
    | some w' =>
        have hmem := List.mem_reverse.mp (List.mem_of_find?_eq_some hf)
        have hs := List.find?_some hf
        have := h w' hmem
        rw [this] at hs
        simp at hs
    | none => rfl

/-- The result of a Delete call routed to a table import worker: the
worker's panic, or the router's unknown-table error. -/
inductive DeleteResult where
  | panicked (msg : String)
  | unknownTable (err : String)
  deriving Repr, DecidableEq

/-- tableImport.Delete (database/bigquery/tx.go): a single unconditional
panic. -/
def tableImportDelete (_id : Int) : DeleteResult :=
  .panicked "unable to delete in bulkImport mode"

/-- AvroTable.Delete (part_005): the identical unconditional panic. -/
def AvroTableDelete (_id : Int) : DeleteResult :=
  .panicked "unable to delete in bulkImport mode"

/-- newTxRouter (database/bigquery/router.go): one worker per configured
base table; the bulkImport flag is received and never read, so the worker
set does not depend on it. -/
def newTxRouterTables (tables : List String) (_bulkImport : Bool) : List String :=
  tables

/-- TxRouter.Delete (database/bigquery/router.go): route by table name,
unknown-table error when no worker exists, otherwise the worker's Delete. -/
def TxRouterDelete (workerTables : List String) (table : String) (id : Int) : DeleteResult :=
  if workerTables.contains table then tableImportDelete id
  else .unknownTable ("Delete from unknown table " ++ table)

/-- C4 counterexample: a router opened in non-bulk mode (Begin passes
bulkImport = false) still panics on Delete for a known table, so Delete is
not defined outside bulk-import mode. -/
theorem TxRouterDelete_panics_in_non_bulk_mode :
    TxRouterDelete (newTxRouterTables ["roads"] false) "roads" 1 =
      .panicked "unable to delete in bulkImport mode" := by
  rfl

/-- C4 amended: Delete on a table import worker unconditionally panics with
"unable to delete in bulkImport mode" whatever the mode: newTxRouter
ignores its bulkImport flag, the bigquery and avro workers' Delete bodies
are a single panic, and so the contract-violation branch is reachable for
both values of the flag, not exactly when it is true. -/
theorem TxRouterDelete_always_panics (bulkImport : Bool) (tables : List String)
    (table : String) (id : Int) (h : tables.contains table = true) :
    TxRouterDelete (newTxRouterTables tables bulkImport) table id =
      .panicked "unable to delete in bulkImport mode" ∧
    newTxRouterTables tables true = newTxRouterTables tables false ∧
    AvroTableDelete id = .panicked "unable to delete in bulkImport mode" := by
  refine ⟨?_, rfl, rfl⟩
  unfold TxRouterDelete newTxRouterTables
  rw [if_pos h]
  rfl

/-- C4 witness: the amended statement at the concrete router of the
counterexample, opened in bulk mode, deleting id 2 from table roads. -/
theorem TxRouterDelete_always_panics_witness :
    TxRouterDelete (newTxRouterTables ["roads"] true) "roads" 2 =
      .panicked "unable to delete in bulkImport mode" ∧
    newTxRouterTables ["roads"] true = newTxRouterTables ["roads"] false ∧
    AvroTableDelete 2 = .panicked "unable to delete in bulkImport mode" :=
  TxRouterDelete_always_panics true ["roads"] "roads" 2 (by decide)

end ImposmRouter

namespace ImposmBQTx

/-- The externally visible steps of tableImport.End
(database/bigquery/tx.go), in the order the code performs them for the
worker of one table. -/
inductive BQEffect where
  | closeRows (table : String)
  | closeWriter (table : String)
  | loadRun (table : String)
  | loadWait (table : String)
  | setExpiration (tempTable : String)
  | deleteTable (table : String)
  | queryRun (sql : String)
  | queryWait (sql : String)
  deriving Repr, DecidableEq

/-- The materialization statement End builds for table `n` of dataset `ds`
(copyQuery in tableImport.End): create-or-replace the target from the temp
table, decoding the staged WKB geometry. -/
def copySQL (ds n : String) : String :=
  "CREATE OR REPLACE TABLE `" ++ ds ++ "." ++ n
    ++ "` AS ( SELECT * EXCEPT(geometry), ST_GEOGFROMWKB(geometry) AS geometry FROM `"
    ++ ds ++ "." ++ n ++ "_tmp` );"

/-- tableImport.End (database/bigquery/tx.go): drain the row channel, close
the staged-object writer, start and await the load job into the temp table,
set its expiration, delete the target table, run and await the
materialization query, delete the temp table.  The remote steps are
embedded as succeeding; a failing step only truncates the trace after the
effect that started it. -/
def tableImportEnd (ds n : String) : List BQEffect :=
  [.closeRows n, .closeWriter n, .loadRun n, .loadWait n,
   .setExpiration (n ++ "_tmp"), .deleteTable n,
   .queryRun (copySQL ds n), .queryWait (copySQL ds n),
   .deleteTable (n ++ "_tmp")]

/-- TxRouter.End of the bigquery router (database/bigquery/router.go): call
End on the worker of every table. -/
def TxRouterEndBQEffects (ds : String) (workers : List String) : List BQEffect :=
  (workers.map (tableImportEnd ds)).flatten

/-- TxRouter.Abort of the bigquery router (database/bigquery/router.go):
its loop body is the same call of tt.End() on every worker. -/
def TxRouterAbortBQEffects (ds : String) (workers : List String) : List BQEffect :=
  (workers.map (tableImportEnd ds)).flatten

/-- C5 counterexample: aborting a bigquery transaction with one worker for
table roads starts the load job, runs the materialize (CREATE OR REPLACE)
query and deletes the target table — the three things the claim says never
happen after Abort. -/
theorem TxRouterAbortBQ_runs_bulk_load :
    BQEffect.loadRun "roads" ∈ TxRouterAbortBQEffects "import" ["roads"] ∧
    BQEffect.queryRun (copySQL "import" "roads") ∈ TxRouterAbortBQEffects "import" ["roads"] ∧
    BQEffect.deleteTable "roads" ∈ TxRouterAbortBQEffects "import" ["roads"] := by
  refine ⟨?_, ?_, ?_⟩ <;> simp [TxRouterAbortBQEffects, tableImportEnd]

/-- C5 amended: Abort on the bigquery transaction router drains and closes
every worker by calling its End, and is therefore identical to End: for
every worker it starts the load job, deletes the target table and runs the
materialize query, instead of skipping the warehouse bulk-load sequence. -/
theorem TxRouterAbortBQ_is_End (ds : String) (ws : List String) (n : String)
    (h : n ∈ ws) :
    TxRouterAbortBQEffects ds ws = TxRouterEndBQEffects ds ws ∧
    BQEffect.loadRun n ∈ TxRouterAbortBQEffects ds ws ∧
    BQEffect.queryRun (copySQL ds n) ∈ TxRouterAbortBQEffects ds ws ∧
    BQEffect.deleteTable n ∈ TxRouterAbortBQEffects ds ws := by
  refine ⟨rfl, ?_, ?_, ?_⟩ <;>
    · rw [TxRouterAbortBQEffects, List.mem_flatten]
      exact ⟨tableImportEnd ds n, List.mem_map_of_mem (tableImportEnd ds) h,
        by simp [tableImportEnd]⟩

/-- C5 witness: the amended statement at the concrete one-worker router of
the counterexample. -/
theorem TxRouterAbortBQ_is_End_witness :
    TxRouterAbortBQEffects "import" ["roads"] = TxRouterEndBQEffects "import" ["roads"] ∧
    BQEffect.loadRun "roads" ∈ TxRouterAbortBQEffects "import" ["roads"] ∧
    BQEffect.queryRun (copySQL "import" "roads") ∈ TxRouterAbortBQEffects "import" ["roads"] ∧
    BQEffect.deleteTable "roads" ∈ TxRouterAbortBQEffects "import" ["roads"] :=
  TxRouterAbortBQ_is_End "import" ["roads"] "roads" (by simp)

end ImposmBQTx

namespace ImposmAvro

/-- AvroType (gcs part_002, avro spec.go): the Avro wire type tags. -/
inductive AvroType where
  | null
  | boolean
  | int
  | long
  | float
  | double
  | bytes
  | string
  | record
  | enum
  | array
  | map
  | fixed
  deriving Repr, DecidableEq

/-- The Go string constant of each AvroType. -/
def AvroType.goName : AvroType → String
  | .null => "null"
  | .boolean => "boolean"
  | .int => "int"
  | .long => "long"
  | .float => "float"
  | .double => "double"
  | .bytes => "bytes"
  | .string => "string"
  | .record => "record"
  | .enum => "enum"
  | .array => "array"
  | .map => "map"
  | .fixed => "fixed"

/-- FieldType (gcs part_000, avro part_003): the closed variant set
registered in avroTypes. -/
inductive FieldType where
  | simpleFieldType (fieldType : AvroType)
  | geometryType (fieldType : AvroType)
  | validatedGeometryType (fieldType : AvroType)
  | tagsType
  deriving Repr, DecidableEq

/-- The AvroType() method of each variant: simple fields report their
registered type, geometry and validated geometry always report string,
tags report record. -/
def avroTypeOf : FieldType → AvroType
  | .simpleFieldType t => t
  | .geometryType _ => .string
  | .validatedGeometryType _ => .string
  | .tagsType => .record

/-- FieldSpec (gcs part_002, avro spec.go). -/
structure FieldSpec where
  name : String
  type : FieldType
  deriving Repr, DecidableEq

/-- FieldSpec.AvroName: every character outside [a-zA-Z0-9_] becomes an
underscore. -/
def AvroName (s : String) : String :=
  String.mk (s.toList.map (fun c => if c.isAlphanum || c = '_' then c else '_'))

/-- AsAvroFieldSchema().PrimaryType() composed (gcs part_002): the field
schema is [null, AvroType()], overridden to [null, array] for record-typed
fields, and PrimaryType picks the first non-null entry. -/
def primaryType (f : FieldSpec) : AvroType :=
  if avroTypeOf f.type = .record then .array else avroTypeOf f.type

/-- A row cell as the encoders can observe it.  Float-valued cells are
outside the embedding (no claim touches them); nil is Option.none at the
call sites. -/
inductive CellValue where
  | str (s : String)
  | int (n : Int)
  | bool (b : Bool)
  | bytes (bs : List Nat)
  deriving Repr, DecidableEq

/-- An encoded wire value: the null-or-type tagged single-entry map the
encoders build (tagged), the key/value pair array of the tags branch
(tagPairs), and the primitive payloads. -/
inductive WireValue where
  | vnull
  | vstring (s : String)
  | vlong (n : Int)
  | vbool (b : Bool)
  | vbytes (bs : List Nat)
  | raw (c : CellValue)
  | tagPairs (pairs : List (String × String))
  | tagged (key : String) (v : WireValue)
  deriving Repr, DecidableEq

/-- The rendering reflect.Value.String() gives a non-string value. -/
def reflectString : CellValue → String
  | .str s => s
  | .int _ => "<int64 Value>"
  | .bool _ => "<bool Value>"
  | .bytes _ => "<[]uint8 Value>"

/-- AvroType.ValueAsType (avro spec.go): coerce through the reflect calls.
reflect.Value.String never panics (it renders non-strings), while Bool,
Bytes, Float and Int panic on a value of another kind; .error embeds the
panic.  Every embedded cell kind panics in the float cases because float
cells are outside the embedding. -/
def ValueAsType (t : AvroType) (c : CellValue) : Except String WireValue :=
  match t with
  | .string | .enum => .ok (.vstring (reflectString c))
  | .boolean =>
      match c with
      | .bool b => .ok (.vbool b)
      | _ => .error "reflect: call of reflect.Value.Bool on wrong kind"
  | .bytes =>
      match c with
      | .bytes bs => .ok (.vbytes bs)
      | _ => .error "reflect: call of reflect.Value.Bytes on wrong kind"
  | .double | .fixed | .float => .error "reflect: call of reflect.Value.Float on wrong kind"
  | .int | .long =>
      match c with
      | .int n => .ok (.vlong n)
      | _ => .error "reflect: call of reflect.Value.Int on wrong kind"
  | _ => .ok (.raw c)

/-- One quoted token of an hstore literal: the input after its opening
quote, returning the token and the rest. -/
def hstoreQuoted : List Char → Option (String × List Char)
  | [] => none
  | '\\' :: c :: tl => (hstoreQuoted tl).map (fun r => (String.mk (c :: r.1.toList), r.2))
  | '"' :: tl => some ("", tl)
  | c :: tl => (hstoreQuoted tl).map (fun r => (String.mk (c :: r.1.toList), r.2))

/-- hstore.Scan of lib/pq, external to this repository: parse a
comma-separated list of quoted key, arrow, quoted-or-NULL value pairs; none
embeds a parse error.  A NULL value scans as an invalid sql.NullString
whose String field is empty. -/
def hstorePairs : Nat → List Char → List (String × String) → Option (List (String × String))
  | 0, _, _ => none
  | fuel + 1, l, acc =>
      match l.dropWhile (fun c => c = ' ' || c = ',') with
      | [] => some acc.reverse
      | '"' :: l1 =>
          match hstoreQuoted l1 with
          | none => none
          | some (k, r1) =>
              match r1.dropWhile (fun c => c = ' ') with
              | '=' :: '>' :: r2 =>
                  match r2.dropWhile (fun c => c = ' ') with
                  | 'N' :: 'U' :: 'L' :: 'L' :: r3 => hstorePairs fuel r3 ((k, "") :: acc)
                  | '"' :: r3 =>
                      match hstoreQuoted r3 with
                      | none => none
                      | some (v, r4) => hstorePairs fuel r4 ((k, v) :: acc)
                  | _ => none
              | _ => none
      | _ => none

/-- hstore.Scan over a string cell. -/
def hstoreScan (s : String) : Option (List (String × String)) :=
  hstorePairs (s.length + 1) s.toList []

/-- encodeFieldAvro (database/gcs/tx.go) and the textually identical
encodeFieldAvroDB (part_005): the tags branch runs first and asserts the
value to string before any null check, parsing it as hstore (a parse error
yields an empty collection); then a nil value becomes the null-tagged map;
then the value is coerced by ValueAsType and tagged with the primary type
name.  .error embeds a panic. -/
def encodeFieldAvro (field : FieldSpec) (value : Option CellValue) : Except String WireValue :=
  let avroType := primaryType field
  if field.type = .tagsType then
    match value with
    | some (.str s) => .ok (.tagPairs ((hstoreScan s).getD []))
    | some _ => .error "interface conversion: interface is not string"
    | none => .error "interface conversion: interface is nil, not string"
  else
    match value with
    | none => .ok (.tagged "null" .vnull)
    | some c => (ValueAsType avroType c).map (.tagged avroType.goName)

/-- One cell of the bigquery row encoder (tableImport.loop in
database/bigquery/tx.go): the key is "null" for a nil value and the field
type's Avro type name otherwise, and the value is passed through as is. -/
def tableImportEncodeCell (avroT : String) (value : Option CellValue) : WireValue :=
  match value with
  | none => .tagged "null" .vnull
  | some c => .tagged avroT (.raw c)

/-- The tags collection field of the worked examples. -/
def tagsField : FieldSpec := { name := "tags", type := .tagsType }

/-- The geometry field of the worked examples (registered with bytes). -/
def geomField : FieldSpec := { name := "geometry", type := .geometryType .bytes }

/-- C6 counterexample: encoding a nil cell of a tags-collection field does
not yield the null-tagged wire value; the unchecked string assertion before
the null check panics. -/
theorem encodeFieldAvro_nil_tags_panics :
    encodeFieldAvro tagsField none =
      .error "interface conversion: interface is nil, not string" := by
  rfl

/-- C6 amended: encoding a nil cell yields the null-tagged wire value for
every variant except the tags collection (scalar, geometry, validated
geometry), and for every field of the bigquery row encoder; for the tags
variant the gcs and avro encoders panic on nil instead, because the string
assertion and hstore parse run before the null check. -/
theorem encodeFieldAvro_nil (f : FieldSpec) (t : String) :
    (f.type ≠ .tagsType → encodeFieldAvro f none = .ok (.tagged "null" .vnull)) ∧
    (f.type = .tagsType →
      encodeFieldAvro f none = .error "interface conversion: interface is nil, not string") ∧
    tableImportEncodeCell t none = .tagged "null" .vnull := by
  refine ⟨fun h => ?_, fun h => ?_, rfl⟩
  · unfold encodeFieldAvro
    rw [if_neg h]
  · unfold encodeFieldAvro
    rw [if_pos h]

/-- C6 witness: the amended statement at the geometry field, the tags field
and the long Avro tag. -/
theorem encodeFieldAvro_nil_witness :
    encodeFieldAvro geomField none = .ok (.tagged "null" .vnull) ∧
    encodeFieldAvro tagsField none =
      .error "interface conversion: interface is nil, not string" ∧
    tableImportEncodeCell "long" none = .tagged "null" .vnull :=
  ⟨(encodeFieldAvro_nil geomField "long").1 (by decide),
   (encodeFieldAvro_nil tagsField "long").2.1 rfl,
   (encodeFieldAvro_nil tagsField "long").2.2⟩

/-- The encoding of one row in AvroTable.loop (part_005): each cell is
encoded by encodeFieldAvro against the field at its position and stored
under the sanitized field name, in row order; a row longer than the field
list is the index-out-of-range panic, a shorter row leaves the trailing
fields out. -/
def encodeRowAvro : List FieldSpec → List (Option CellValue) →
    Except String (List (String × WireValue))
  | _, [] => .ok []
  | [], _ :: _ => .error "runtime error: index out of range"
  | f :: fs, c :: cs => do
      let v ← encodeFieldAvro f c
      let rest ← encodeRowAvro fs cs
      .ok ((AvroName f.name, v) :: rest)

/-- The state of one table import worker (AvroTable, part_005): the rows
still in the channel, the records appended to the Avro writer, whether the
channel was closed, whether the underlying writer was closed, and whether
the consumer goroutine died in a panic (in which case wg.Done never runs). -/
structure WorkerState where
  pending : List (List (Option CellValue))
  appended : List (List (String × WireValue))
  chanClosed : Bool
  writerClosed : Bool
  panicked : Bool
  deriving Repr, DecidableEq

/-- The events of one worker: the producer's Insert (a send on the rows
channel) and the two halves of End (close the channel; after wg.Wait, close
the writer), and the consumer goroutine receiving and appending one row. -/
inductive WorkerEv where
  | ins (row : List (Option CellValue))
  | consume
  | closeChan
  | closeWriter
  deriving Repr, DecidableEq

/-- One step of the worker.  none marks an event the code cannot take in
the given state: a send on a closed channel, a receive from an empty
channel or by a dead consumer, a second close, or closing the writer before
wg.Wait returned (which needs the channel closed, drained, and the consumer
alive).  The channel capacity (64) bounds only when a send blocks, not what
sequences of events are observable, so it does not appear. -/
def workerStep (fields : List FieldSpec) (s : WorkerState) : WorkerEv → Option WorkerState
  | .ins row =>
      if s.chanClosed then none
      else some { s with pending := s.pending ++ [row] }
  | .consume =>
      if s.panicked then none
      else
        match s.pending with
        | [] => none
        | row :: rest =>
            match encodeRowAvro fields row with
            | .ok v => some { s with pending := rest, appended := s.appended ++ [v] }
            | .error _ => some { s with pending := rest, panicked := true }
  | .closeChan =>
      if s.chanClosed then none else some { s with chanClosed := true }
  | .closeWriter =>
      if s.chanClosed && s.pending.isEmpty && !s.panicked && !s.writerClosed then
        some { s with writerClosed := true }
      else none

/-- The worker before Begin returns: empty channel, nothing appended. -/
def initWorker : WorkerState :=
  { pending := [], appended := [], chanClosed := false, writerClosed := false,
    panicked := false }

/-- Run a schedule of events from a state; none when the schedule takes an
impossible step. -/
def workerRun (fields : List FieldSpec) : WorkerState → List WorkerEv → Option WorkerState
  | s, [] => some s
  | s, e :: evs =>
      match workerStep fields s e with
      | some s1 => workerRun fields s1 evs
      | none => none

/-- The rows a schedule inserts, in order. -/
def insertedRows (evs : List WorkerEv) : List (List (Option CellValue)) :=
  evs.filterMap (fun e =>
    match e with
    | .ins r => some r
    | _ => none)

/-- The encodings of a list of rows, in order; none when one panics. -/
def encodeAll (fields : List FieldSpec) : List (List (Option CellValue)) →
    Option (List (List (String × WireValue)))
  | [] => some []
  | r :: rs =>
      match (encodeRowAvro fields r).toOption with
      | some v => (encodeAll fields rs).map (fun l => v :: l)
      | none => none

theorem encodeAll_snoc (fields : List FieldSpec) (rs : List (List (Option CellValue)))
    (r : List (Option CellValue)) :
    encodeAll fields (rs ++ [r]) =
      match encodeAll fields rs, (encodeRowAvro fields r).toOption with
      | some xs, some v => some (xs ++ [v])
      | _, _ => none := by
  induction rs with
  | nil =>
      simp only [List.nil_append, encodeAll]
      cases (encodeRowAvro fields r).toOption <;> rfl
  | cons x rs ih =>
      simp only [List.cons_append, encodeAll]
      rw [List.append_eq, ih]
      cases hx : (encodeRowAvro fields x).toOption with
      | none => cases (encodeRowAvro fields r).toOption <;> rfl
      | some vx =>
          cases encodeAll fields rs with
          | none => cases (encodeRowAvro fields r).toOption <;> rfl
          | some xs => cases (encodeRowAvro fields r).toOption <;> rfl

theorem encodeAll_length (fields : List FieldSpec) (rs : List (List (Option CellValue)))
    (xs : List (List (String × WireValue))) (h : encodeAll fields rs = some xs) :
    xs.length = rs.length := by
  induction rs generalizing xs with
  | nil =>
      simp only [encodeAll] at h
      cases h
      rfl
  | cons r rest ih =>
      simp only [encodeAll] at h
      cases he : (encodeRowAvro fields r).toOption with
      | none => rw [he] at h; exact absurd h (by simp)
      | some v =>
          rw [he] at h
          cases hrest : encodeAll fields rest with
          | none => rw [hrest] at h; exact absurd h (by simp)
          | some ys =>
              rw [hrest] at h
              simp only [Option.map] at h
              cases h
              simp [ih ys hrest]

/-- The invariant of the worker: while the consumer is alive, the inserted
rows split into the consumed prefix, whose encodings are exactly the
appended records in order, and the still-pending suffix; and the writer is
only ever closed with the channel closed and drained and the consumer
alive. -/
def WorkerInv (fields : List FieldSpec) (inserted : List (List (Option CellValue)))
    (s : WorkerState) : Prop :=
  (s.panicked = false →
    ∃ done, done ++ s.pending = inserted ∧ encodeAll fields done = some s.appended) ∧
  (s.writerClosed = true → s.chanClosed = true ∧ s.pending = [] ∧ s.panicked = false)

theorem workerStep_inv (fields : List FieldSpec) (inserted : List (List (Option CellValue)))
    (s s1 : WorkerState) (e : WorkerEv) (hinv : WorkerInv fields inserted s)
    (hstep : workerStep fields s e = some s1) :
    WorkerInv fields (inserted ++ insertedRows [e]) s1 := by
  obtain ⟨halive, hclosed⟩ := hinv
  cases e with
  | ins row =>
      simp only [workerStep] at hstep
      by_cases hc : s.chanClosed = true
      · rw [if_pos hc] at hstep; exact absurd hstep (by simp)
      · rw [if_neg hc] at hstep
        cases hstep
        refine ⟨fun hp => ?_, fun hw => ?_⟩
        · obtain ⟨done, hsplit, henc⟩ := halive hp
          exact ⟨done, by simp [insertedRows, ← hsplit], henc⟩
        · exact absurd ((hclosed hw).1) hc
  | consume =>
      simp only [workerStep] at hstep
      by_cases hp : s.panicked = true
      · rw [if_pos hp] at hstep; exact absurd hstep (by simp)
      · rw [if_neg hp] at hstep
        cases hpend : s.pending with
        | nil => rw [hpend] at hstep; exact absurd hstep (by simp)
        | cons row rest =>
            rw [hpend] at hstep
            simp only [] at hstep
            obtain ⟨done, hsplit, henc⟩ := halive (by simpa using hp)
            rw [hpend] at hsplit
            cases henc2 : encodeRowAvro fields row with
            | ok v =>
                rw [henc2] at hstep
                cases hstep
                refine ⟨fun _ => ⟨done ++ [row], ?_, ?_⟩, fun hw => ?_⟩
                · simp only [insertedRows, List.filterMap]
                  simpa [List.append_assoc] using hsplit
                · rw [encodeAll_snoc, henc, henc2]
                  rfl
                · have := (hclosed hw).2.1
                  rw [hpend] at this
                  exact absurd this (by simp)
            | error msg =>
                rw [henc2] at hstep
                cases hstep
                refine ⟨fun hp1 => absurd hp1 (by simp), fun hw => ?_⟩
                have := (hclosed hw).2.1
                rw [hpend] at this
                exact absurd this (by simp)
  | closeChan =>
      simp only [workerStep] at hstep
      by_cases hc : s.chanClosed = true
      · rw [if_pos hc] at hstep; exact absurd hstep (by simp)
      · rw [if_neg hc] at hstep
        cases hstep
        refine ⟨fun hp => ?_, fun hw => ?_⟩
        · obtain ⟨done, hsplit, henc⟩ := halive hp
          exact ⟨done, by simpa [insertedRows] using hsplit, henc⟩
        · exact ⟨rfl, (hclosed hw).2.1, (hclosed hw).2.2⟩
  | closeWriter =>
      simp only [workerStep] at hstep
      by_cases hg : (s.chanClosed && s.pending.isEmpty && !s.panicked && !s.writerClosed) = true
      · rw [if_pos hg] at hstep
        cases hstep
        simp only [Bool.and_eq_true, Bool.not_eq_true'] at hg
        refine ⟨fun hp => ?_, fun _ => ?_⟩
        · obtain ⟨done, hsplit, henc⟩ := halive hp
          exact ⟨done, by simpa [insertedRows] using hsplit, henc⟩
        · exact ⟨hg.1.1.1, by simpa using hg.1.1.2, hg.1.2⟩
      · rw [if_neg hg] at hstep
        exact absurd hstep (by simp)

theorem workerRun_inv (fields : List FieldSpec) (evs : List WorkerEv)
    (inserted : List (List (Option CellValue))) (s s1 : WorkerState)
    (hinv : WorkerInv fields inserted s) (hrun : workerRun fields s evs = some s1) :
    WorkerInv fields (inserted ++ insertedRows evs) s1 := by
  induction evs generalizing s inserted with
  | nil =>
      simp only [workerRun] at hrun
      cases hrun
      simpa [insertedRows] using hinv
  | cons e evs ih =>
      simp only [workerRun] at hrun
      cases hstep : workerStep fields s e with
      | none => rw [hstep] at hrun; exact absurd hrun (by simp)
      | some smid =>
          rw [hstep] at hrun
          have h1 := workerStep_inv fields inserted s smid e hinv hstep
          have h2 := ih _ _ h1 hrun
          have : insertedRows (e :: evs) = insertedRows [e] ++ insertedRows evs := by
            cases e <;> simp [insertedRows, List.filterMap_cons]
          rw [this, ← List.append_assoc]
          exact h2

/-- C8: whenever a schedule of inserts, consumer steps and the two halves
of End reaches a state with the writer closed, the appended records are
exactly the encodings of the inserted rows, one record per row, in
insertion order, and the channel is drained — every append happened before
the writer was closed, because the close step is only enabled once the
channel is closed and empty and the consumer has finished. -/
theorem AvroTable_end_appends (fields : List FieldSpec) (evs : List WorkerEv)
    (s : WorkerState) (hrun : workerRun fields initWorker evs = some s)
    (hw : s.writerClosed = true) :
    encodeAll fields (insertedRows evs) = some s.appended ∧
    s.appended.length = (insertedRows evs).length ∧
    s.pending = [] := by
  have hinv0 : WorkerInv fields [] initWorker := by
    exact ⟨fun _ => ⟨[], rfl, rfl⟩, fun hw0 => by simp [initWorker] at hw0⟩
  have hinv := workerRun_inv fields evs [] initWorker s hinv0 hrun
  rw [List.nil_append] at hinv
  obtain ⟨halive, hclosed⟩ := hinv
  obtain ⟨hchan, hpend, hpan⟩ := hclosed hw
  obtain ⟨done, hsplit, henc⟩ := halive hpan
  rw [hpend, List.append_nil] at hsplit
  subst hsplit
  exact ⟨henc, encodeAll_length fields (insertedRows evs) s.appended henc, hpend⟩

/-- The field list of the witness worker: a single long id column. -/
def wFields : List FieldSpec := [{ name := "id", type := .simpleFieldType .long }]

/-- A witness schedule: two inserts, one concurrent consume, End closing
the channel, the final drain, End closing the writer. -/
def wEvs : List WorkerEv :=
  [.ins [some (.int 1)], .ins [some (.int 2)], .consume, .closeChan, .consume, .closeWriter]

/-- The state the witness schedule reaches. -/
def wEnd : WorkerState :=
  { pending := [],
    appended := [[("id", .tagged "long" (.vlong 1))], [("id", .tagged "long" (.vlong 2))]],
    chanClosed := true, writerClosed := true, panicked := false }

/-- C8 witness: the worker theorem at the concrete two-row schedule. -/
theorem AvroTable_end_appends_witness :
    encodeAll wFields (insertedRows wEvs) = some wEnd.appended ∧
    wEnd.appended.length = (insertedRows wEvs).length ∧
    wEnd.pending = [] :=
  AvroTable_end_appends wFields wEvs wEnd rfl rfl

end ImposmAvro

namespace ImposmRotate

/-- Substring test of the Go strings.Contains. -/
def strContains (h sub : String) : Bool :=
  (List.range (h.length + 1)).any (fun i => (h.toList.drop i).take sub.length == sub.toList)

/-- The error of table.Metadata for a dataset holding `tables`: nil when
the table exists, the 404 error text otherwise. -/
def tableMetadataErr (tables : List String) (t : String) : Option String :=
  if tables.contains t then none
  else some ("googleapi: Error 404: Not found: Table " ++ t)

/-- BigQuery.tableExists (part_006): return (false, err) only for a
metadata error whose text does not contain "Not found"; otherwise return
(true, nil) — also when the error was exactly the not-found error, so a
missing table still reports true. -/
def tableExists (tables : List String) (t : String) : Except String Bool :=
  match tableMetadataErr tables t with
  | some e => if !(strContains e "Not found") then .error e else .ok true
  | none => .ok true

/-- The observable actions of one rotation (BigQuery.rotate, part_007). -/
inductive RotEffect where
  | createDatasetIfNotExists (role : String)
  | warnSkip (table : String)
  | snapshotRun (table : String)
  | snapshotWait (table : String)
  | copyRun (table : String)
  | copyWait (table : String)
  deriving Repr, DecidableEq

/-- The tables present in the three datasets of a rotation, by role. -/
structure World where
  source : List String
  dest : List String
  backup : List String
  deriving Repr, DecidableEq

/-- Add a table to a dataset (a write-truncate copy target). -/
def insertTable (l : List String) (t : String) : List String :=
  if l.contains t then l else t :: l

/-- The per-table loop of rotate: check existence in source and dest,
skip with a warning when the source lacks the table, snapshot dest into
backup when dest has it, then copy source into dest.  A copy or snapshot
job whose copied-from table does not exist fails at Wait, aborting the
whole rotation. -/
def rotateTables : World → List String → List RotEffect →
    List RotEffect × Except String World
  | w, [], eff => (eff, .ok w)
  | w, t :: ts, eff =>
      match tableExists w.source t with
      | .error e => (eff, .error e)
      | .ok sourceExists =>
          match tableExists w.dest t with
          | .error e => (eff, .error e)
          | .ok destExists =>
              if !sourceExists then
                rotateTables w ts (eff ++ [.warnSkip t])
              else
                let eff1 := if destExists then eff ++ [.snapshotRun t, .snapshotWait t] else eff
                let snapErr : Option String :=
                  if destExists && !(w.dest.contains t) then
                    some ("Not found: Table " ++ t)
                  else none
                let w1 :=
                  if destExists && w.dest.contains t then
                    { w with backup := insertTable w.backup t }
                  else w
                match snapErr with
                | some e => (eff1, .error e)
                | none =>
                    let eff2 := eff1 ++ [.copyRun t, .copyWait t]
                    if w1.source.contains t then
                      rotateTables { w1 with dest := insertTable w1.dest t } ts eff2
                    else (eff2, .error ("Not found: Table " ++ t))

/-- BigQuery.rotate (part_007): ensure the dest and backup datasets exist,
then rotate every table name. -/
def rotate (w : World) (names : List String) : List RotEffect × Except String World :=
  rotateTables w names
    [.createDatasetIfNotExists "dest", .createDatasetIfNotExists "backup"]

/-- C7: tableExists answers true even for a table absent from the dataset
(its not-found branch falls through to the true return), so rotating a
table missing from the source dataset is not skipped with a warning:
rotate issues the backup snapshot and the copy job for it and aborts with
the copy job's failure. -/
theorem rotate_missing_source_not_skipped :
    tableExists ([] : List String) "roads" = .ok true ∧
    rotate { source := [], dest := ["roads"], backup := [] } ["roads"] =
      ([.createDatasetIfNotExists "dest", .createDatasetIfNotExists "backup",
        .snapshotRun "roads", .snapshotWait "roads", .copyRun "roads", .copyWait "roads"],
       .error "Not found: Table roads") ∧
    RotEffect.warnSkip "roads" ∉
      (rotate { source := [], dest := ["roads"], backup := [] } ["roads"]).1 := by
  refine ⟨rfl, rfl, by decide⟩

end ImposmRotate

namespace ImposmConn

/-! parseConnectionString (database/bigquery/util.go).  Go strings are
embedded as lists of character codes; `str` renders a literal.  The net/url
and path library calls it makes are embedded for the URI shapes the
function accepts: a scheme before "://", a host up to the next slash or
colon (Hostname strips a port; userinfo and brackets are outside the
embedding), the raw path as EscapedPath (no percent escapes), and the
path.Clean segment algorithm.  An opaque URI (a colon not followed by
slashes) is embedded as the fatal exit like a wrong scheme.  log.Fatal is
Option.none. -/

/-- A Go string literal as its character codes. -/
def str (s : String) : List Nat := s.toList.map Char.toNat

/-- strings.ToLower on one character code, over the ASCII letters (the
Unicode case mappings are the identity on the URI and identifier alphabet
the function handles). -/
def lowerChar (c : Nat) : Nat := if 65 ≤ c ∧ c ≤ 90 then c + 32 else c

/-- strings.ToLower. -/
def toLowerL (l : List Nat) : List Nat := l.map lowerChar

/-- Whether `p` begins `s`. -/
def isPrefixL : List Nat → List Nat → Bool
  | [], _ => true
  | _ :: _, [] => false
  | p :: ps, c :: cs => p == c && isPrefixL ps cs

/-- strings.TrimPrefix. -/
def trimPrefixL (p s : List Nat) : List Nat :=
  if isPrefixL p s then s.drop p.length else s

/-- unicode.IsSpace over ASCII. -/
def isSpaceC (c : Nat) : Bool :=
  c == 32 || c == 9 || c == 10 || c == 13 || c == 11 || c == 12

/-- strings.TrimSpace. -/
def trimSpaceL (s : List Nat) : List Nat :=
  ((s.dropWhile isSpaceC).reverse.dropWhile isSpaceC).reverse

/-- strings.Split on a one-character separator. -/
def splitOnL (sep : Nat) : List Nat → List (List Nat)
  | [] => [[]]
  | c :: cs =>
      match splitOnL sep cs with
      | [] => [[]]
      | p :: ps => if c == sep then [] :: p :: ps else (c :: p) :: ps

/-- The split at the first occurrence of `sep`, none when absent;
strings.SplitN(s, sep, 2) yields [s] for none and [a, b] for some (a, b). -/
def splitFirst (sep : Nat) : List Nat → Option (List Nat × List Nat)
  | [] => none
  | c :: cs =>
      if c == sep then some ([], cs)
      else (splitFirst sep cs).map (fun r => (c :: r.1, r.2))

/-- The three recognized connection parameters, Go zero values empty. -/
structure ConnParams where
  projectID : List Nat
  location : List Nat
  gcsURI : List Nat
  deriving Repr, DecidableEq

/-- One iteration of the parameter loop: split at the first "=", skip a
parameter without one, assign by key. -/
def paramStep (acc : ConnParams) (param : List Nat) : ConnParams :=
  match splitFirst 61 param with
  | none => acc
  | some (key, val) =>
      if key == str "projectid" then { acc with projectID := val }
      else if key == str "location" then { acc with location := val }
      else if key == str "tempgcsuri" then { acc with gcsURI := val }
      else acc

/-- The parameter loop over the semicolon-split parameters. -/
def collectParams (params : List (List Nat)) : ConnParams :=
  params.foldl paramStep { projectID := [], location := [], gcsURI := [] }

/-- url.Parse up to the scheme: the text before the first colon when "//"
follows it, with the rest after the slashes. -/
def splitScheme (l : List Nat) : Option (List Nat × List Nat) :=
  match splitFirst 58 l with
  | none => none
  | some (sch, rest) =>
      if isPrefixL (str "//") rest then some (sch, rest.drop 2) else none

/-- u.Hostname(): the authority up to a slash, with a port after a colon
stripped. -/
def hostOf (rest : List Nat) : List Nat :=
  (rest.takeWhile (fun c => c != 47)).takeWhile (fun c => c != 58)

/-- u.EscapedPath(): from the first slash on. -/
def pathOf (rest : List Nat) : List Nat :=
  rest.dropWhile (fun c => c != 47)

/-- strings.Join-like concatenation with a separator. -/
def joinSep (sep : List Nat) : List (List Nat) → List Nat
  | [] => []
  | [x] => x
  | x :: xs => x ++ sep ++ joinSep sep xs

/-- The slash-split segments of a path, with empty and dot segments
dropped. -/
def cleanSegs (p : List Nat) : List (List Nat) :=
  (splitOnL 47 p).filter (fun s => !s.isEmpty && s != [46])

/-- One segment against the stack of path.Clean: dotdot pops when it can,
disappears at the root, stays in a relative path; everything else is
pushed. -/
def cleanStep (rooted : Bool) (st : List (List Nat)) (seg : List Nat) : List (List Nat) :=
  if seg == [46, 46] then
    if !st.isEmpty && st.getLast? != some [46, 46] then st.dropLast
    else if rooted then st
    else st ++ [[46, 46]]
  else st ++ [seg]

/-- The resolved segment stack of path.Clean. -/
def cleanStack (rooted : Bool) (segs : List (List Nat)) : List (List Nat) :=
  segs.foldl (cleanStep rooted) []

/-- path.Clean: drop empty and dot segments, resolve dotdot against the
stack, and rebuild; the empty input and an emptied relative path come back
as a dot. -/
def pathClean (p : List Nat) : List Nat :=
  if p.isEmpty then [46]
  else
    let rooted := p.headD 0 == 47
    let joined := joinSep [47] (cleanStack rooted (cleanSegs p))
    if rooted then 47 :: joined
    else if joined.isEmpty then [46]
    else joined

/-- strings.TrimLeft(s, "/"). -/
def trimLeftSlash (s : List Nat) : List Nat := s.dropWhile (fun c => c == 47)

/-- What parseConnectionString returns: project id, staging bucket, object
prefix (gcsPrefix in the source) and processing location. -/
structure ConnResult where
  projectID : List Nat
  gcsBucket : List Nat
  objectPfx : List Nat
  location : List Nat
  deriving Repr, DecidableEq

/-- The body of parseConnectionString after its ToLower line: trim the
scheme prefix and slashes, split the parameters at semicolons, collect the
three recognized keys, fail without a staging URI, parse it, require the
gs scheme, and build bucket and prefix. -/
def parseCore (s0 : List Nat) : Option ConnResult :=
  let s1 := trimPrefixL (str "bigquery:") s0
  let s2 := trimSpaceL (trimPrefixL (str "//") s1)
  let ps := collectParams (splitOnL 59 s2)
  if ps.gcsURI.isEmpty then none
  else
    match splitScheme ps.gcsURI with
    | none => none
    | some (scheme, rest) =>
        if scheme != str "gs" then none
        else
          some { projectID := ps.projectID,
                 gcsBucket := hostOf rest,
                 objectPfx := trimLeftSlash (pathClean (pathOf rest)) ++ [47],
                 location := ps.location }

/-- parseConnectionString (database/bigquery/util.go): lower-case the whole
connection string first, then parse. -/
def parseConnectionString (s : List Nat) : Option ConnResult :=
  parseCore (toLowerL s)

theorem lowerChar_idem (c : Nat) : lowerChar (lowerChar c) = lowerChar c := by
  unfold lowerChar
  split_ifs <;> omega

theorem toLowerL_idem (l : List Nat) : toLowerL (toLowerL l) = toLowerL l := by
  unfold toLowerL
  rw [List.map_map]
  exact List.map_congr_left (fun c _ => by
    simp only [Function.comp_apply]
    exact lowerChar_idem c)

/-- A string the lower-casing leaves unchanged, character by character. -/
def LowerFixed (l : List Nat) : Prop := ∀ c ∈ l, lowerChar c = c

theorem toLowerL_eq_self {l : List Nat} (h : LowerFixed l) : toLowerL l = l := by
  unfold toLowerL
  conv_rhs => rw [show l = l.map id from (List.map_id l).symm]
  exact List.map_congr_left h

theorem lowerFixed_toLowerL (s : List Nat) : LowerFixed (toLowerL s) := by
  intro c hc
  obtain ⟨a, _, rfl⟩ := List.mem_map.mp hc
  exact lowerChar_idem a

theorem lowerFixed_subset {l l' : List Nat} (hsub : l' ⊆ l) (h : LowerFixed l) :
    LowerFixed l' :=
  fun c hc => h c (hsub hc)

theorem trimPrefixL_subset (p s : List Nat) : trimPrefixL p s ⊆ s := by
  unfold trimPrefixL
  split_ifs
  · exact List.drop_subset _ _
  · exact fun _ h => h

theorem trimSpaceL_subset (s : List Nat) : trimSpaceL s ⊆ s := by
  intro c hc
  unfold trimSpaceL at hc
  rw [List.mem_reverse] at hc
  have h1 := (List.dropWhile_sublist _).subset hc
  rw [List.mem_reverse] at h1
  exact (List.dropWhile_sublist _).subset h1

theorem splitOnL_ne_nil (sep : Nat) (l : List Nat) : splitOnL sep l ≠ [] := by
  cases l with
  | nil => simp [splitOnL]
  | cons c cs =>
      unfold splitOnL
      cases h : splitOnL sep cs with
      | nil => simp
      | cons p ps => split_ifs <;> simp

theorem splitOnL_subset (sep : Nat) : ∀ (l : List Nat), ∀ p ∈ splitOnL sep l, p ⊆ l := by
  intro l
  induction l with
  | nil =>
      intro p hp
      simp only [splitOnL, List.mem_singleton] at hp
      subst hp
      exact fun c hc => absurd hc (by simp)
  | cons a as ih =>
      intro p hp
      unfold splitOnL at hp
      cases h : splitOnL sep as with
      | nil => exact absurd h (splitOnL_ne_nil sep as)
      | cons q qs =>
          rw [h] at hp
          simp only [] at hp
          by_cases hc : (a == sep) = true
          · rw [if_pos hc] at hp
            rcases List.mem_cons.mp hp with rfl | hp2
            · exact fun c hcp => absurd hcp (by simp)
            · intro c hcp
              have hsub : p ⊆ as := ih p (by rw [h]; exact hp2)
              exact List.mem_cons_of_mem a (hsub hcp)
          · rw [if_neg hc] at hp
            rcases List.mem_cons.mp hp with rfl | hp2
            · intro c hcp
              rcases List.mem_cons.mp hcp with rfl | hcq
              · exact List.mem_cons_self c as
              · have hsub : q ⊆ as := ih q (by rw [h]; exact List.mem_cons_self q qs)
                exact List.mem_cons_of_mem a (hsub hcq)
            · intro c hcp
              have hsub : p ⊆ as := ih p (by rw [h]; exact List.mem_cons_of_mem q hp2)
              exact List.mem_cons_of_mem a (hsub hcp)

theorem splitFirst_subset (sep : Nat) :
    ∀ (l a b : List Nat), splitFirst sep l = some (a, b) → a ⊆ l ∧ b ⊆ l := by
  intro l
  induction l with
  | nil => intro a b h; simp [splitFirst] at h
  | cons c cs ih =>
      intro a b h
      unfold splitFirst at h
      by_cases hc : (c == sep) = true
      · rw [if_pos hc] at h
        cases h
        exact ⟨fun x hx => absurd hx (by simp),
               fun x hx => List.mem_cons_of_mem c hx⟩
      · rw [if_neg hc] at h
        cases hs : splitFirst sep cs with
        | none => rw [hs] at h; simp at h
        | some r =>
            obtain ⟨a1, b1⟩ := r
            rw [hs] at h
            simp only [Option.map, Option.some.injEq, Prod.mk.injEq] at h
            obtain ⟨h4, h5⟩ := h
            subst h4
            subst h5
            obtain ⟨ha, hb⟩ := ih a1 b1 hs
            constructor
            · intro x hx
              rcases List.mem_cons.mp hx with rfl | hx2
              · exact List.mem_cons_self x cs
              · exact List.mem_cons_of_mem c (ha hx2)
            · exact fun x hx => List.mem_cons_of_mem c (hb hx)

theorem paramStep_lowerFixed (acc : ConnParams) (p : List Nat) (hp : LowerFixed p)
    (h1 : LowerFixed acc.projectID) (h2 : LowerFixed acc.location)
    (h3 : LowerFixed acc.gcsURI) :
    LowerFixed (paramStep acc p).projectID ∧ LowerFixed (paramStep acc p).location ∧
      LowerFixed (paramStep acc p).gcsURI := by
  unfold paramStep
  cases hs : splitFirst 61 p with
  | none => exact ⟨h1, h2, h3⟩
  | some r =>
      obtain ⟨k, v⟩ := r
      have hv : LowerFixed v := lowerFixed_subset (splitFirst_subset 61 p k v hs).2 hp
      simp only []
      split_ifs <;>
        first
          | exact ⟨hv, h2, h3⟩
          | exact ⟨h1, hv, h3⟩
          | exact ⟨h1, h2, hv⟩
          | exact ⟨h1, h2, h3⟩

theorem paramsFoldl_lowerFixed :
    ∀ (params : List (List Nat)) (acc : ConnParams),
      (∀ p ∈ params, LowerFixed p) →
      LowerFixed acc.projectID → LowerFixed acc.location → LowerFixed acc.gcsURI →
      LowerFixed (params.foldl paramStep acc).projectID ∧
        LowerFixed (params.foldl paramStep acc).location ∧
        LowerFixed (params.foldl paramStep acc).gcsURI := by
  intro params
  induction params with
  | nil => intro acc _ h1 h2 h3; exact ⟨h1, h2, h3⟩
  | cons p ps ih =>
      intro acc h h1 h2 h3
      rw [List.foldl_cons]
      obtain ⟨g1, g2, g3⟩ :=
        paramStep_lowerFixed acc p (h p (List.mem_cons_self p ps)) h1 h2 h3
      exact ih (paramStep acc p) (fun q hq => h q (List.mem_cons_of_mem p hq)) g1 g2 g3

theorem collectParams_lowerFixed (params : List (List Nat))
    (h : ∀ p ∈ params, LowerFixed p) :
    LowerFixed (collectParams params).projectID ∧
      LowerFixed (collectParams params).location ∧
      LowerFixed (collectParams params).gcsURI := by
  unfold collectParams
  exact paramsFoldl_lowerFixed params _ h (fun c hc => absurd hc (by simp))
    (fun c hc => absurd hc (by simp)) (fun c hc => absurd hc (by simp))

theorem splitScheme_subset (l a b : List Nat) (h : splitScheme l = some (a, b)) :
    a ⊆ l ∧ b ⊆ l := by
  unfold splitScheme at h
  cases hs : splitFirst 58 l with
  | none => rw [hs] at h; simp at h
  | some r =>
      obtain ⟨sch, rest⟩ := r
      rw [hs] at h
      simp only [] at h
      by_cases hp : isPrefixL (str "//") rest = true
      · rw [if_pos hp] at h
        simp only [Option.some.injEq, Prod.mk.injEq] at h
        obtain ⟨h4, h5⟩ := h
        subst h4
        subst h5
        obtain ⟨ha, hb⟩ := splitFirst_subset 58 l sch rest hs
        exact ⟨ha, fun x hx => hb (List.drop_subset _ _ hx)⟩
      · rw [if_neg hp] at h
        simp at h

theorem hostOf_subset (rest : List Nat) : hostOf rest ⊆ rest := by
  intro c hc
  have h1 := (List.takeWhile_sublist _).subset hc
  exact (List.takeWhile_sublist _).subset h1

theorem pathOf_subset (rest : List Nat) : pathOf rest ⊆ rest :=
  (List.dropWhile_sublist _).subset

theorem joinSep_mem (sep : List Nat) :
    ∀ (xs : List (List Nat)) (c : Nat), c ∈ joinSep sep xs →
      c ∈ sep ∨ ∃ x ∈ xs, c ∈ x := by
  intro xs
  induction xs with
  | nil => intro c hc; simp [joinSep] at hc
  | cons x xs ih =>
      intro c hc
      cases xs with
      | nil =>
          exact Or.inr ⟨x, List.mem_cons_self x [], by simpa [joinSep] using hc⟩
      | cons y ys =>
          simp only [joinSep] at hc
          rcases List.mem_append.mp hc with h1 | h2
          · rcases List.mem_append.mp h1 with hx | hsep
            · exact Or.inr ⟨x, List.mem_cons_self x (y :: ys), hx⟩
            · exact Or.inl hsep
          · rcases ih c (by simpa [joinSep] using h2) with hsep | ⟨z, hz, hcz⟩
            · exact Or.inl hsep
            · exact Or.inr ⟨z, List.mem_cons_of_mem x hz, hcz⟩

theorem cleanStep_inv (p : List Nat) (rooted : Bool) (st : List (List Nat))
    (seg : List Nat) (hseg : ∀ c ∈ seg, c ∈ p)
    (hst : ∀ s ∈ st, ∀ c ∈ s, c = 46 ∨ c ∈ p) :
    ∀ s ∈ cleanStep rooted st seg, ∀ c ∈ s, c = 46 ∨ c ∈ p := by
  unfold cleanStep
  split_ifs with h1 h2 h3
  · exact fun s hs => hst s ((List.dropLast_sublist st).subset hs)
  · exact hst
  · intro s hs
    rcases List.mem_append.mp hs with hs1 | hs2
    · exact hst s hs1
    · intro c hc
      rw [List.mem_singleton] at hs2
      subst hs2
      left
      simp only [List.mem_cons, List.mem_singleton, List.not_mem_nil, or_false] at hc
      rcases hc with h | h <;> exact h
  · intro s hs
    rcases List.mem_append.mp hs with hs1 | hs2
    · exact hst s hs1
    · rw [List.mem_singleton] at hs2
      subst hs2
      exact fun c hc => Or.inr (hseg c hc)

theorem cleanStackFoldl_inv (p : List Nat) (rooted : Bool) :
    ∀ (segs : List (List Nat)) (st : List (List Nat)),
      (∀ s ∈ segs, ∀ c ∈ s, c ∈ p) →
      (∀ s ∈ st, ∀ c ∈ s, c = 46 ∨ c ∈ p) →
      ∀ s ∈ segs.foldl (cleanStep rooted) st, ∀ c ∈ s, c = 46 ∨ c ∈ p := by
  intro segs
  induction segs with
  | nil => intro st _ hst; exact hst
  | cons seg segs ih =>
      intro st hsegs hst
      rw [List.foldl_cons]
      exact ih (cleanStep rooted st seg)
        (fun s hs => hsegs s (List.mem_cons_of_mem seg hs))
        (cleanStep_inv p rooted st seg (hsegs seg (List.mem_cons_self seg segs)) hst)

theorem cleanSegs_mem (p : List Nat) : ∀ s ∈ cleanSegs p, ∀ c ∈ s, c ∈ p := by
  intro s hs
  unfold cleanSegs at hs
  exact splitOnL_subset 47 p s (List.mem_of_mem_filter hs)

theorem pathClean_mem (p : List Nat) (c : Nat) (hc : c ∈ pathClean p) :
    c = 46 ∨ c = 47 ∨ c ∈ p := by
  unfold pathClean at hc
  simp only [] at hc
  have hstack := cleanStackFoldl_inv p (p.headD 0 == 47) (cleanSegs p) []
    (cleanSegs_mem p) (fun s hs => absurd hs (by simp))
  split_ifs at hc
  · left; simpa using hc
  · rcases List.mem_cons.mp hc with rfl | hjoin
    · exact Or.inr (Or.inl rfl)
    · rcases joinSep_mem [47] _ c hjoin with hsep | ⟨x, hx, hcx⟩
      · exact Or.inr (Or.inl (by simpa using hsep))
      · rcases hstack x hx c hcx with h46 | hcp
        · exact Or.inl h46
        · exact Or.inr (Or.inr hcp)
  · left; simpa using hc
  · rcases joinSep_mem [47] _ c hc with hsep | ⟨x, hx, hcx⟩
    · exact Or.inr (Or.inl (by simpa using hsep))
    · rcases hstack x hx c hcx with h46 | hcp
      · exact Or.inl h46
      · exact Or.inr (Or.inr hcp)

theorem parseCore_some_lowerFixed (s : List Nat) (r : ConnResult)
    (hs : LowerFixed s) (h : parseCore s = some r) :
    LowerFixed r.projectID ∧ LowerFixed r.gcsBucket ∧
      LowerFixed r.objectPfx ∧ LowerFixed r.location := by
  unfold parseCore at h
  have hs2 : LowerFixed (trimSpaceL (trimPrefixL (str "//") (trimPrefixL (str "bigquery:") s))) :=
    lowerFixed_subset
      (List.Subset.trans (trimSpaceL_subset _)
        (List.Subset.trans (trimPrefixL_subset _ _) (trimPrefixL_subset _ _))) hs
  have hparams : ∀ q ∈ splitOnL 59 (trimSpaceL (trimPrefixL (str "//")
      (trimPrefixL (str "bigquery:") s))), LowerFixed q :=
    fun q hq => lowerFixed_subset (splitOnL_subset 59 _ q hq) hs2
  obtain ⟨hproj, hloc, huri⟩ := collectParams_lowerFixed _ hparams
  simp only [] at h
  split_ifs at h
  cases hss : splitScheme (collectParams (splitOnL 59 (trimSpaceL (trimPrefixL (str "//")
      (trimPrefixL (str "bigquery:") s))))).gcsURI with
  | none => rw [hss] at h; simp at h
  | some pr =>
      obtain ⟨scheme, rest⟩ := pr
      rw [hss] at h
      simp only [] at h
      have hrest : LowerFixed rest :=
        lowerFixed_subset (splitScheme_subset _ scheme rest hss).2 huri
      split_ifs at h
      simp only [Option.some.injEq] at h
      subst h
      refine ⟨hproj, lowerFixed_subset (hostOf_subset rest) hrest, ?_, hloc⟩
      intro c hc
      rcases List.mem_append.mp hc with h1 | h2
      · have h3 := (List.dropWhile_sublist _).subset h1
        rcases pathClean_mem (pathOf rest) c h3 with h46 | h47 | hin
        · subst h46; rfl
        · subst h47; rfl
        · exact hrest c (pathOf_subset rest hin)
      · rw [List.mem_singleton] at h2
        subst h2
        rfl

/-- C10: parseConnectionString lower-cases the whole connection string
before splitting, so parsing is invariant under the case of its input (in
particular parameter keys match case-insensitively), and every component it
returns — project id, staging bucket, object prefix and location — is
already lower-cased (lower-casing it again changes nothing). -/
theorem parseConnectionString_lowercases (s : List Nat) :
    parseConnectionString s = parseConnectionString (toLowerL s) ∧
    ∀ r, parseConnectionString s = some r →
      toLowerL r.projectID = r.projectID ∧ toLowerL r.gcsBucket = r.gcsBucket ∧
      toLowerL r.objectPfx = r.objectPfx ∧ toLowerL r.location = r.location := by
  constructor
  · unfold parseConnectionString
    rw [toLowerL_idem]
  · intro r h
    obtain ⟨h1, h2, h3, h4⟩ :=
      parseCore_some_lowerFixed (toLowerL s) r (lowerFixed_toLowerL s) h
    exact ⟨toLowerL_eq_self h1, toLowerL_eq_self h2, toLowerL_eq_self h3,
      toLowerL_eq_self h4⟩

/-- A mixed-case connection string of the witness. -/
def connW : List Nat :=
  str "bigquery://ProjectId=MyProj;TempGCSURI=gs://My-Bucket/Some/Path;Location=EU"

/-- What parsing the witness string returns: every component is the
lower-cased form of the supplied value (the object prefix with the
trailing slash the code appends). -/
def connR : ConnResult :=
  { projectID := str "myproj", gcsBucket := str "my-bucket",
    objectPfx := str "some/path/", location := str "eu" }

/-- C10 witness: the theorem at the concrete mixed-case connection string,
with the parse of that string computed. -/
theorem parseConnectionString_lowercases_witness :
    parseConnectionString connW = some connR ∧
    toLowerL connR.projectID = connR.projectID ∧
    toLowerL connR.gcsBucket = connR.gcsBucket ∧
    toLowerL connR.objectPfx = connR.objectPfx ∧
    toLowerL connR.location = connR.location := by
  refine ⟨by decide, ?_⟩
  exact (parseConnectionString_lowercases connW).2 connR (by decide)

end ImposmConn
